import Mathlib

/-!
Shallow embedding of the `grid-rs` crate (primary variant, `src/grid_grid.rs`,
with `GridPos` from `src/grid/grid_pos.rs`), together with theorems settling
the specification claims.  Machine integers (`usize`, `i8`) are modelled as
`Nat` / `Int`, with 8-bit wrapping made explicit where the source casts to
`i8`; fallible operations (panics) are modelled with `Option`.
-/

namespace GridRs

/-- `GridPos` from `src/grid/grid_pos.rs`: an opaque handle wrapping a linear
index. -/
structure GridPos where
  pos : Nat
deriving DecidableEq

/-- Two's-complement wrap of an integer to the `i8` range `[-128, 127]`,
used to model Rust's `as i8` casts and wrapping `i8` addition. -/
def wrap8 (z : Int) : Int := (z + 128) % 256 - 128

/-- `Grid<T>` from `src/grid_grid.rs`: a flat buffer of elements plus a
width. -/
structure Grid (T : Type) where
  data : List T
  width : Nat

namespace Grid

variable {T : Type}

/-- `Grid::size`: the length of the backing buffer. -/
def size (g : Grid T) : Nat := g.data.length

/-- `Grid::new(width, data)`: stores the flat data directly, no validation. -/
def new (width : Nat) (data : List T) : Grid T := ⟨data, width⟩

/-- `Grid::new_empty(width, height)`: `width * height` default-initialized
elements. -/
def new_empty (T : Type) [Inhabited T] (width height : Nat) : Grid T :=
  ⟨List.replicate (width * height) default, width⟩

/-- `Grid::get`: a reference to the element at `pos.pos` when in range. -/
def get (g : Grid T) (p : GridPos) : Option T :=
  if h : p.pos < g.size then some (g.data.get ⟨p.pos, h⟩) else none

/-- `Grid::get_mut`: like `get`, a (mutable) reference to the element at
`pos.pos` when in range; modelled by the value read. -/
def get_mut (g : Grid T) (p : GridPos) : Option T :=
  if h : p.pos < g.size then some (g.data.get ⟨p.pos, h⟩) else none

/-- `Grid::put`: replaces the element at `pos` when `get_mut` succeeds,
otherwise leaves the grid unchanged. -/
def put (g : Grid T) (p : GridPos) (v : T) : Grid T :=
  match g.get_mut p with
  | some _ => ⟨g.data.set p.pos v, g.width⟩
  | none => g

/-- `Grid::get_neighbors`: the 4-slot array `[Up, Right, Down, Left]`.
Each slot is filled under exactly the source's guard.  (Total function for
the in-precondition case; the panicking cases are modelled by
`get_neighbors_checked`.) -/
def get_neighbors (g : Grid T) (position : GridPos) : List (Option GridPos) :=
  let index := position.pos
  let pos_in_row := index % g.width
  [if g.width ≤ index then some ⟨index - g.width⟩ else none,
   if pos_in_row + 1 < g.width then some ⟨index + 1⟩ else none,
   if index < g.size - g.width then some ⟨index + g.width⟩ else none,
   if 0 < pos_in_row then some ⟨index - 1⟩ else none]

/-- `Grid::get_neighbors` with its two panic points made explicit:
`index % self.width` panics when `width == 0`, and `self.size() - self.width`
underflows when `size < width`.  `none` models the panic. -/
def get_neighbors_checked (g : Grid T) (p : GridPos) :
    Option (List (Option GridPos)) :=
  if g.width = 0 then none
  else if g.size < g.width then none
  else some (g.get_neighbors p)

/-- `Grid::pos_at`: column guard, fast-path row-vs-height guard, then the
authoritative linear-index-vs-size check. -/
def pos_at (g : Grid T) (row col : Nat) : Option GridPos :=
  if g.width ≤ col then none
  else
    let height := g.size / g.width
    if height < row then none
    else
      let pos := g.width * row + col
      if pos < g.size then some ⟨pos⟩ else none

/-- `Grid::get_at_offset`: the source casts `pos % width` and `pos / width`
to `i8` and adds the `i8` offsets; the casts and additions are modelled with
explicit two's-complement wrapping to the 8-bit range. -/
def get_at_offset (g : Grid T) (at_position : GridPos)
    (row_offset col_offset : Int) : Option T :=
  let col := wrap8 (col_offset + wrap8 (at_position.pos % g.width : Nat))
  let row := wrap8 (row_offset + wrap8 (at_position.pos / g.width : Nat))
  if row < 0 ∨ col < 0 then none
  else
    match g.pos_at row.toNat col.toNat with
    | some p => g.get p
    | none => none

/-- Modelled from the spec (§4.3): `get_at_offset` with exact integer
arithmetic — target row/column obtained by adding the signed offsets to the
row/column decomposition of the position, `none` when a coordinate is
negative, otherwise delegation to `pos_at` + `get`. -/
def get_at_offset_spec (g : Grid T) (at_position : GridPos)
    (row_offset col_offset : Int) : Option T :=
  let col : Int := col_offset + (at_position.pos % g.width : Nat)
  let row : Int := row_offset + (at_position.pos / g.width : Nat)
  if row < 0 ∨ col < 0 then none
  else
    match g.pos_at row.toNat col.toNat with
    | some p => g.get p
    | none => none

/-- `impl Display for Grid<T>` (`fmt`): enumerate the buffer, append to each
element the separator chosen by `index % width == width - 1`, and fold the
pieces together from the empty string.  The element rendering `"{item}"` is
abstracted by `toStr`. -/
def display (toStr : T → String) (g : Grid T) : String :=
  (g.data.enum.map (fun p =>
      toStr p.2 ++ if p.1 % g.width = g.width - 1 then ",\n" else ", ")).foldl
    (fun acc next => acc ++ next) ""

/-- Modelled from the spec (§4.5): the rendered output is the concatenation,
in linear index order over all indices `0..size` including the last, of each
element followed by `",\n"` when `index % width = width - 1` and `", "`
otherwise. -/
def renderSpec (toStr : T → String) (g : Grid T) : String :=
  String.join ((List.range g.size).map (fun i =>
    (g.data[i]?).elim "" toStr
      ++ if i % g.width = g.width - 1 then ",\n" else ", "))

end Grid

/-- `impl From<Vec<Vec<T>>> for Grid<T>`: validates that every row has the
first row's length, panicking otherwise (`none` models the panic; the empty
outer list panics on the `all_widths[0]` lookup); on success the rows are
flattened in order and the width is the first row's length. -/
def fromRows {T : Type} : List (List T) → Option (Grid T)
  | [] => none
  | x :: xs =>
    if (x :: xs).all (fun row => row.length = x.length)
    then some ⟨(x :: xs).flatten, x.length⟩
    else none

/-- `GridIterator` from `src/grid_grid.rs`: a borrowed grid plus a cursor. -/
structure GridIterator (T : Type) where
  grid : Grid T
  index : Nat

/-- `Grid::iter`: a fresh iterator with cursor 0. -/
def Grid.iter {T : Type} (g : Grid T) : GridIterator T := ⟨g, 0⟩

/-- `GridIterator::next`: reads at the cursor, then advances the cursor;
returns the yielded item together with the successor iterator state. -/
def GridIterator.next {T : Type} (it : GridIterator T) :
    Option T × GridIterator T :=
  (it.grid.get ⟨it.index⟩, ⟨it.grid, it.index + 1⟩)

/-- The iterator state after `n` calls to `next`. -/
def GridIterator.stepN {T : Type} (it : GridIterator T) : Nat → GridIterator T
  | 0 => it
  | n + 1 => GridIterator.stepN it.next.2 n

/- ### Helper lemmas -/

/-- `get` agrees with the partial list lookup at the position's index. -/
theorem Grid.get_eq_getElem? {T : Type} (g : Grid T) (p : GridPos) :
    g.get p = g.data[p.pos]? := by
  unfold Grid.get
  split
  · rename_i h
    rw [List.getElem?_eq_getElem h]
    rfl
  · rename_i h
    rw [List.getElem?_eq_none (Nat.le_of_not_lt h)]

/-- `wrap8` is the identity on values already in the `i8` range. -/
theorem wrap8_eq_self (z : Int) (h1 : -128 ≤ z) (h2 : z ≤ 127) :
    wrap8 z = z := by
  unfold wrap8
  rw [Int.emod_eq_of_lt (by omega) (by omega)]
  omega

/-- `pos_at` succeeds with the linear index when the column is in range and
the index is below `size`. -/
theorem Grid.pos_at_eq_some {T : Type} (g : Grid T) (row col : Nat)
    (hw : 0 < g.width) (hc : col < g.width)
    (hlt : g.width * row + col < g.size) :
    g.pos_at row col = some ⟨g.width * row + col⟩ := by
  unfold Grid.pos_at
  have hrow : row ≤ g.size / g.width := by
    rw [Nat.le_div_iff_mul_le hw, Nat.mul_comm]
    omega
  rw [if_neg (by omega), if_neg (by omega), if_pos hlt]

/-- Flattening rows of constant length `w` gives a list of length
`rows.length * w`. -/
theorem flatten_length_const {α : Type} (rows : List (List α)) (w : Nat)
    (hlen : ∀ row ∈ rows, row.length = w) :
    rows.flatten.length = rows.length * w := by
  induction rows with
  | nil => simp
  | cons x xs ih =>
    have hx : x.length = w := hlen x (List.mem_cons_self x xs)
    have ih2 := ih (fun r hr => hlen r (List.mem_cons_of_mem x hr))
    show (x ++ xs.flatten).length = (xs.length + 1) * w
    rw [List.length_append, hx, ih2, Nat.succ_mul]
    omega

/-- Indexing the flattening of constant-length rows at `w * r + c` reads the
`c`-th entry of the `r`-th row. -/
theorem flatten_getElem {α : Type} (rows : List (List α)) (w : Nat)
    (hlen : ∀ row ∈ rows, row.length = w) (r c : Nat) (hc : c < w)
    (hr : r < rows.length) :
    rows.flatten[w * r + c]? = (rows.get ⟨r, hr⟩)[c]? := by
  induction rows generalizing r with
  | nil => simp at hr
  | cons x xs ih =>
    have hx : x.length = w := hlen x (List.mem_cons_self x xs)
    cases r with
    | zero =>
      show (x ++ xs.flatten)[w * 0 + c]? = x[c]?
      rw [Nat.mul_zero, Nat.zero_add]
      exact List.getElem?_append_left (by omega)
    | succ n =>
      show (x ++ xs.flatten)[w * (n + 1) + c]? = (xs.get ⟨n, _⟩)[c]?
      have hle : x.length ≤ w * (n + 1) + c := by
        rw [hx, Nat.mul_succ]
        omega
      rw [List.getElem?_append_right hle]
      have hidx : w * (n + 1) + c - x.length = w * n + c := by
        rw [hx, Nat.mul_succ]
        omega
      rw [hidx]
      exact ih (fun row hrow => hlen row (List.mem_cons_of_mem x hrow)) n
        (by simpa using hr)

/- ### Claim theorems -/

/-- C8: for every grid and position, `get` (and `get_mut`) returns the element
at linear index `p.pos` exactly when `p.pos < size`, and `none` otherwise;
both are total functions, so no out-of-range position panics. -/
theorem Grid.get_get_mut_in_range_iff {T : Type} (g : Grid T) (p : GridPos) :
    ((g.get p).isSome ↔ p.pos < g.size)
    ∧ g.get p = g.data[p.pos]?
    ∧ g.get_mut p = g.get p := by
  refine ⟨?_, g.get_eq_getElem? p, rfl⟩
  rw [g.get_eq_getElem? p]
  constructor
  · intro hs
    by_contra h
    rw [List.getElem?_eq_none (Nat.le_of_not_lt h)] at hs
    simp at hs
  · intro h
    rw [List.getElem?_eq_getElem h]
    rfl

/-- C9: `put` at an in-range position replaces exactly that element (a
subsequent `get` returns the new value, all other cells, the width and the
size are unchanged); at an out-of-range position it is a silent no-op. -/
theorem Grid.put_frame {T : Type} (g : Grid T) (p : GridPos) (v : T) :
    (p.pos < g.size →
      (g.put p v).get p = some v
      ∧ (∀ q : GridPos, q.pos ≠ p.pos → (g.put p v).get q = g.get q)
      ∧ (g.put p v).width = g.width
      ∧ (g.put p v).size = g.size)
    ∧ (g.size ≤ p.pos → g.put p v = g) := by
  constructor
  · intro hin
    have hmut : g.get_mut p = some (g.data.get ⟨p.pos, hin⟩) := by
      unfold Grid.get_mut
      exact dif_pos hin
    have hput : g.put p v = ⟨g.data.set p.pos v, g.width⟩ := by
      unfold Grid.put
      rw [hmut]
    refine ⟨?_, ?_, ?_, ?_⟩
    · rw [hput, Grid.get_eq_getElem?]
      exact List.getElem?_set_eq hin
    · intro q hq
      rw [hput, Grid.get_eq_getElem?, Grid.get_eq_getElem?]
      exact List.getElem?_set_ne (fun h => hq h.symm)
    · rw [hput]
    · rw [hput]
      simp [Grid.size, List.length_set]
  · intro hout
    have hmut : g.get_mut p = none := by
      unfold Grid.get_mut
      exact dif_neg (Nat.not_lt_of_le hout)
    unfold Grid.put
    rw [hmut]

/-- C1: under `width > 0` and `size ≥ width`, `get_neighbors` returns a
4-slot array in the fixed order Up, Right, Down, Left, with each slot present
exactly under its guard and carrying the index stated in the claim. -/
theorem Grid.get_neighbors_spec {T : Type} (g : Grid T) (p : GridPos)
    (hw : 0 < g.width) (hs : g.width ≤ g.size) :
    (g.get_neighbors p).length = 4
    ∧ ((g.get_neighbors p)[0]? = some (some ⟨p.pos - g.width⟩) ↔ g.width ≤ p.pos)
    ∧ ((g.get_neighbors p)[0]? = some none ↔ p.pos < g.width)
    ∧ ((g.get_neighbors p)[1]? = some (some ⟨p.pos + 1⟩) ↔ p.pos % g.width + 1 < g.width)
    ∧ ((g.get_neighbors p)[1]? = some none ↔ ¬ p.pos % g.width + 1 < g.width)
    ∧ ((g.get_neighbors p)[2]? = some (some ⟨p.pos + g.width⟩) ↔ p.pos < g.size - g.width)
    ∧ ((g.get_neighbors p)[2]? = some none ↔ ¬ p.pos < g.size - g.width)
    ∧ ((g.get_neighbors p)[3]? = some (some ⟨p.pos - 1⟩) ↔ 0 < p.pos % g.width)
    ∧ ((g.get_neighbors p)[3]? = some none ↔ p.pos % g.width = 0) := by
  unfold Grid.get_neighbors
  refine ⟨rfl, ?_, ?_, ?_, ?_, ?_, ?_, ?_, ?_⟩ <;>
    · simp only [List.getElem?_cons_zero, List.getElem?_cons_succ]
      split_ifs with hc <;> simp [hc] <;> omega

/-- C1 witness: the 3×3 example grid at center position 4. -/
theorem Grid.get_neighbors_spec_witness :
    (0 < (Grid.new 3 (List.range 9)).width)
    ∧ ((Grid.new 3 (List.range 9)).width ≤ (Grid.new 3 (List.range 9)).size)
    ∧ (((Grid.new 3 (List.range 9)).get_neighbors ⟨4⟩)[1]?
        = some (some ⟨5⟩) ↔ 4 % (Grid.new 3 (List.range 9)).width + 1 < (Grid.new 3 (List.range 9)).width) :=
  ⟨by decide, by decide,
   ((Grid.get_neighbors_spec (Grid.new 3 (List.range 9)) ⟨4⟩ (by decide) (by decide)).2.2.2.1)⟩

/-- C2: `pos_at` returns `some` of the linear index `width*row + col` exactly
when `col < width` and that index is below `size`; moreover whenever the
row-vs-height fast path rejects, the linear index is already `≥ size`, so the
fast path never changes the result. -/
theorem Grid.pos_at_spec {T : Type} (g : Grid T) (row col : Nat)
    (hw : 0 < g.width) :
    (g.pos_at row col = some ⟨g.width * row + col⟩
      ↔ col < g.width ∧ g.width * row + col < g.size)
    ∧ (g.pos_at row col = none
      ↔ ¬ (col < g.width ∧ g.width * row + col < g.size))
    ∧ (g.size / g.width < row → g.size ≤ g.width * row + col) := by
  have hfast : g.size / g.width < row → g.size ≤ g.width * row + col := by
    intro h
    have h2 : g.size < row * g.width := (Nat.div_lt_iff_lt_mul hw).mp h
    rw [Nat.mul_comm] at h2
    omega
  refine ⟨?_, ?_, hfast⟩ <;>
    · unfold Grid.pos_at
      split_ifs with h1 h2 h3 <;> simp <;> omega

/-- C2 witness: width-3 grid with 6 elements, `pos_at 1 2` resolves to
linear index 5. -/
theorem Grid.pos_at_spec_witness :
    (0 < (Grid.new 3 [1, 2, 3, 4, 5, 6]).width)
    ∧ ((Grid.new 3 [1, 2, 3, 4, 5, 6]).pos_at 1 2 = some ⟨5⟩
        ↔ 2 < (Grid.new 3 [1, 2, 3, 4, 5, 6]).width
          ∧ (Grid.new 3 [1, 2, 3, 4, 5, 6]).width * 1 + 2 < (Grid.new 3 [1, 2, 3, 4, 5, 6]).size) :=
  ⟨by decide, (Grid.pos_at_spec (Grid.new 3 [1, 2, 3, 4, 5, 6]) 1 2 (by decide)).1⟩

/-- The iterator state after `k` steps keeps the same grid and has cursor
advanced by `k`. -/
theorem GridIterator.stepN_state {T : Type} (g : Grid T) (i k : Nat) :
    GridIterator.stepN ⟨g, i⟩ k = ⟨g, i + k⟩ := by
  induction k generalizing i with
  | zero => rfl
  | succ n ih =>
    show GridIterator.stepN ⟨g, i + 1⟩ n = _
    rw [ih]
    congr 1
    omega

/-- C4: the `k`-th call to `next` on a fresh iterator yields exactly the
element at linear index `k` (so indices `0..size-1` are visited once each in
increasing order and every call from index `size` on yields nothing), and
`iter` always restarts at cursor 0. -/
theorem Grid.iter_spec {T : Type} (g : Grid T) (k : Nat) :
    ((g.iter.stepN k).next.1 = g.data[k]?)
    ∧ ((g.iter.stepN k).index = k)
    ∧ ((g.iter.stepN k).grid = g)
    ∧ (g.iter.index = 0) := by
  have hstate : g.iter.stepN k = ⟨g, k⟩ := by
    have := GridIterator.stepN_state g 0 k
    simpa [Grid.iter] using this
  refine ⟨?_, ?_, ?_, rfl⟩
  · rw [hstate]
    show g.get ⟨k⟩ = g.data[k]?
    exact Grid.get_eq_getElem? g ⟨k⟩
  · rw [hstate]
  · rw [hstate]

/-- C10: `get_neighbors` (with its panic points modelled explicitly) is total
exactly when `width > 0` and `size ≥ width`: on any other grid the call
panics (modelled `none`) instead of returning a 4-slot array, and under the
precondition it returns exactly `get_neighbors`. -/
theorem Grid.get_neighbors_total_iff {T : Type} (g : Grid T) (p : GridPos) :
    ((g.get_neighbors_checked p).isSome ↔ 0 < g.width ∧ g.width ≤ g.size)
    ∧ (0 < g.width → g.width ≤ g.size →
        g.get_neighbors_checked p = some (g.get_neighbors p)) := by
  unfold Grid.get_neighbors_checked
  constructor
  · split_ifs with h1 h2 <;> simp <;> omega
  · intro hw hs
    rw [if_neg (by omega), if_neg (by omega)]

/-- C10 witness: the precondition fails for a grid built by dimensions with
width 0 and positive height and for one with positive width and height 0
(both panics), and holds for the 3×3 grid, where the checked call returns
the 4-slot array. -/
theorem Grid.get_neighbors_total_iff_witness :
    (¬ ((Grid.new_empty Nat 0 5).get_neighbors_checked ⟨0⟩).isSome)
    ∧ (¬ ((Grid.new_empty Nat 5 0).get_neighbors_checked ⟨0⟩).isSome)
    ∧ (0 < (Grid.new 3 (List.range 9)).width)
    ∧ ((Grid.new 3 (List.range 9)).width ≤ (Grid.new 3 (List.range 9)).size)
    ∧ ((Grid.new 3 (List.range 9)).get_neighbors_checked ⟨4⟩
        = some ((Grid.new 3 (List.range 9)).get_neighbors ⟨4⟩)) :=
  ⟨by decide, by decide, by decide, by decide,
   (Grid.get_neighbors_total_iff (Grid.new 3 (List.range 9)) ⟨4⟩).2
     (by decide) (by decide)⟩

/-- C7: for nonempty nested-row input, construction fails (panics) exactly
when some row's length differs from the first row's; with all lengths equal
it succeeds with the common length as width and the rows flattened in
order. -/
theorem fromRows_spec {α : Type} (rows : List (List α)) (hne : rows ≠ []) :
    (fromRows rows = none ↔ ∃ row ∈ rows, row.length ≠ (rows.head hne).length)
    ∧ ((∀ row ∈ rows, row.length = (rows.head hne).length) →
        fromRows rows = some ⟨rows.flatten, (rows.head hne).length⟩) := by
  match rows with
  | [] => exact absurd rfl hne
  | x :: xs =>
    show (fromRows (x :: xs) = none ↔ ∃ row ∈ x :: xs, row.length ≠ x.length)
      ∧ ((∀ row ∈ x :: xs, row.length = x.length) →
          fromRows (x :: xs) = some ⟨(x :: xs).flatten, x.length⟩)
    constructor
    · simp only [fromRows]
      split_ifs with hall
      · simp only [List.all_eq_true, decide_eq_true_eq] at hall
        simp only [reduceCtorEq, false_iff]
        push_neg
        exact hall
      · simp only [List.all_eq_true, decide_eq_true_eq] at hall
        push_neg at hall
        simpa using hall
    · intro hall
      simp only [fromRows]
      rw [if_pos]
      simp only [List.all_eq_true, decide_eq_true_eq]
      exact hall

/-- C7 witness: rows `[1,2,3]` and `[1,2]` of unequal length make
construction fail, by the failure direction of the characterization. -/
theorem fromRows_spec_witness :
    ([[1, 2, 3], [1, 2]] ≠ ([] : List (List Nat)))
    ∧ fromRows [[1, 2, 3], [(1 : Nat), 2]] = none :=
  ⟨by decide,
   (fromRows_spec [[1, 2, 3], [(1 : Nat), 2]] (by decide)).1.mpr
     ⟨[1, 2], by decide, by decide⟩⟩

/-- C3: a grid constructed from nonempty equal-length rows reproduces the
rows: for every in-range `(r, c)`, `pos_at` resolves to the linear index
`w*r + c` and `get` there reads exactly row `r`, entry `c`. -/
theorem fromRows_roundtrip {α : Type} (rows : List (List α)) (w : Nat)
    (hw : 0 < w) (hne : rows ≠ []) (hlen : ∀ row ∈ rows, row.length = w)
    (r c : Nat) (hr : r < rows.length) (hc : c < w) :
    fromRows rows = some ⟨rows.flatten, w⟩
    ∧ (Grid.mk rows.flatten w).pos_at r c = some ⟨w * r + c⟩
    ∧ (Grid.mk rows.flatten w).get ⟨w * r + c⟩ = (rows.get ⟨r, hr⟩)[c]?
    ∧ ((rows.get ⟨r, hr⟩)[c]?).isSome := by
  have hsize : (Grid.mk rows.flatten w).size = rows.length * w :=
    flatten_length_const rows w hlen
  have hlt : w * r + c < (Grid.mk rows.flatten w).size := by
    rw [hsize]
    have : w * r + c < w * (r + 1) := by
      rw [Nat.mul_succ]
      omega
    have h2 : w * (r + 1) ≤ w * rows.length := Nat.mul_le_mul_left w hr
    rw [Nat.mul_comm w rows.length] at h2
    omega
  refine ⟨?_, ?_, ?_, ?_⟩
  · match rows, hne with
    | x :: xs, _ =>
      have hx : x.length = w := hlen x (List.mem_cons_self x xs)
      simp only [fromRows]
      rw [if_pos]
      · rw [hx]
      · simp only [List.all_eq_true, decide_eq_true_eq]
        intro row hrow
        rw [hlen row hrow, hx]
  · exact Grid.pos_at_eq_some _ r c hw hc hlt
  · rw [Grid.get_eq_getElem?]
    exact flatten_getElem rows w hlen r c hc hr
  · have hcl : c < (rows.get ⟨r, hr⟩).length := by
      rw [hlen _ (List.get_mem rows r hr)]
      exact hc
    rw [List.getElem?_eq_getElem hcl]
    rfl

/-- C3 witness: the 2×2 grid from rows `[[1,2],[3,4]]` reproduces entry
`(1, 0)`. -/
theorem fromRows_roundtrip_witness :
    (0 < 2) ∧ ([[1, 2], [3, 4]] ≠ ([] : List (List Nat)))
    ∧ (fromRows [[1, 2], [(3 : Nat), 4]] = some ⟨[1, 2, 3, 4], 2⟩
        ∧ (Grid.mk [1, 2, 3, 4] 2).pos_at 1 0 = some ⟨2 * 1 + 0⟩
        ∧ (Grid.mk [(1 : Nat), 2, 3, 4] 2).get ⟨2 * 1 + 0⟩
            = (([[1, 2], [3, 4]] : List (List Nat)).get ⟨1, by decide⟩)[0]?
        ∧ ((([[1, 2], [3, 4]] : List (List Nat)).get ⟨1, by decide⟩)[0]?).isSome) :=
  ⟨by decide, by decide,
   fromRows_roundtrip [[1, 2], [3, 4]] 2 (by decide) (by decide)
     (by decide) 1 0 (by decide) (by decide)⟩

/-- C5: for a positive-width grid, the rendered display output is the
concatenation, in linear index order over all elements including the last,
of each element followed by `",\n"` when its index satisfies
`index % width = width - 1` and by `", "` otherwise. -/
theorem Grid.display_renders {T : Type} (toStr : T → String) (g : Grid T)
    (hw : 0 < g.width) :
    Grid.display toStr g = Grid.renderSpec toStr g := by
  unfold Grid.display Grid.renderSpec
  have hjoin : ∀ l : List String,
      l.foldl (fun acc next => acc ++ next) "" = String.join l := fun l => rfl
  rw [hjoin]
  congr 1
  apply List.ext_getElem?
  intro n
  rw [List.getElem?_map, List.getElem?_map, List.getElem?_enum]
  by_cases hn : n < g.size
  · have hd : n < g.data.length := hn
    rw [List.getElem?_range hn, List.getElem?_eq_getElem hd]
    simp [List.getElem?_eq_getElem hd]
  · have hd : g.data.length ≤ n := Nat.le_of_not_lt hn
    rw [List.getElem?_eq_none hd,
      List.getElem?_eq_none (by simpa using Nat.le_of_not_lt hn)]
    rfl

/-- C5 witness: the 2×2 grid of strings `a b / c d` renders with `", "`
inside rows and `",\n"` after each row, including the last. -/
theorem Grid.display_renders_witness :
    (0 < (Grid.new 2 ["a", "b", "c", "d"]).width)
    ∧ (Grid.display id (Grid.new 2 ["a", "b", "c", "d"])
        = Grid.renderSpec id (Grid.new 2 ["a", "b", "c", "d"]))
    ∧ (Grid.display id (Grid.new 2 ["a", "b", "c", "d"]) = "a, b,\nc, d,\n") :=
  ⟨by decide, Grid.display_renders id (Grid.new 2 ["a", "b", "c", "d"]) (by decide),
   rfl⟩

set_option maxRecDepth 8192 in
/-- C6 counterexample: on a width-129 grid, the source's cast of
`pos % width` to `i8` truncates (128 wraps to -128), so `get_at_offset` at
position 128 with both offsets 0 returns nothing, although both ideal target
coordinates are non-negative and the claimed delegation to `pos_at` + `get`
yields element 128. -/
theorem Grid.get_at_offset_counterexample :
    ((Grid.new 129 (List.range 129)).get_at_offset ⟨128⟩ 0 0 = none)
    ∧ ((Grid.new 129 (List.range 129)).get_at_offset_spec ⟨128⟩ 0 0 = some 128)
    ∧ (¬ ((0 : Int) + ((128 : Nat) / 129 : Nat) < 0
        ∨ (0 : Int) + ((128 : Nat) % 129 : Nat) < 0)) :=
  ⟨by decide, by decide, by decide⟩

/-- C6 (amended): when the position's row/column decomposition fits in the
`i8` range and both offset sums stay within `[-128, 127]`, `get_at_offset`
returns nothing exactly when a target coordinate is negative and otherwise
delegates to `pos_at` + `get` on the exact target coordinates, as the spec
states. -/
theorem Grid.get_at_offset_small {T : Type} (g : Grid T) (p : GridPos)
    (ro co : Int) (hm : p.pos % g.width ≤ 127) (hd : p.pos / g.width ≤ 127)
    (hc1 : -128 ≤ co + (p.pos % g.width : Nat))
    (hc2 : co + (p.pos % g.width : Nat) ≤ 127)
    (hr1 : -128 ≤ ro + (p.pos / g.width : Nat))
    (hr2 : ro + (p.pos / g.width : Nat) ≤ 127) :
    g.get_at_offset p ro co = g.get_at_offset_spec p ro co := by
  have hnn : (0 : Int) ≤ ((p.pos / g.width : Nat) : Int) := Int.ofNat_nonneg _
  have hdle : ((p.pos / g.width : Nat) : Int) ≤ 127 := by exact_mod_cast hd
  simp only [Grid.get_at_offset, Grid.get_at_offset_spec]
  rw [wrap8_eq_self ((p.pos % g.width : Nat) : Int) (by omega) (by omega)]
  rw [wrap8_eq_self ((p.pos / g.width : Nat) : Int) (by omega) (by omega)]
  rw [wrap8_eq_self (co + (p.pos % g.width : Nat)) hc1 hc2]
  rw [wrap8_eq_self (ro + (p.pos / g.width : Nat)) hr1 hr2]

/-- C6 witness: the 3×3 grid at center position 4 with offsets (1, 1), where
all the i8 quantities are small. -/
theorem Grid.get_at_offset_small_witness :
    ((4 : Nat) % (Grid.new 3 (List.range 9)).width ≤ 127)
    ∧ ((4 : Nat) / (Grid.new 3 (List.range 9)).width ≤ 127)
    ∧ ((Grid.new 3 (List.range 9)).get_at_offset ⟨4⟩ 1 1
        = (Grid.new 3 (List.range 9)).get_at_offset_spec ⟨4⟩ 1 1) :=
  ⟨by decide, by decide,
   Grid.get_at_offset_small (Grid.new 3 (List.range 9)) ⟨4⟩ 1 1
     (by decide) (by decide) (by decide) (by decide) (by decide) (by decide)⟩

/-- C9 witness: at the concrete grid `[10, 20, 30, 40]` of width 2, `put` at
position 1 makes `get` read the new value, and `put` at position 10 is a
no-op. -/
theorem Grid.put_frame_witness :
    (1 < (Grid.new 2 [10, 20, 30, 40]).size)
    ∧ (((Grid.new 2 [10, 20, 30, 40]).put ⟨1⟩ 99).get ⟨1⟩ = some 99)
    ∧ ((Grid.new 2 [10, 20, 30, 40]).size ≤ 10)
    ∧ ((Grid.new 2 [10, 20, 30, 40]).put ⟨10⟩ 99 = Grid.new 2 [10, 20, 30, 40]) :=
  ⟨by decide,
   ((Grid.put_frame (Grid.new 2 [10, 20, 30, 40]) ⟨1⟩ 99).1 (by decide)).1,
   by decide,
   (Grid.put_frame (Grid.new 2 [10, 20, 30, 40]) ⟨10⟩ 99).2 (by decide)⟩

end GridRs
